import Mathlib

/-!
Shallow embedding of the xrpSMEngine state machine engine
(src/xrpSMEngine.c and src/xrpSMEngine.h).

States are static descriptors referenced by pointer in the C code; here a
state descriptor table `states : Nat → tStateInfo` maps a state index (the
pointer identity) to its descriptor, and pointer comparison becomes index
comparison.  The opaque event payload (`void *` in the C) is modelled as a
numeric handle that the engine copies but never inspects.  State callbacks
(`tStateEntryPoint`) are modelled as pure functions returning the guard
response; the engine records every callback invocation it performs in a
trace of (state index, action) pairs, which stands for the side effects the
C code produces by calling the function pointer.
-/

abbrev tStEventID := Nat

abbrev tStEventData := Nat

/-- Actions sent to a state entry point (`eStateAction` in xrpSMEngine.h). -/
inductive eStateAction where
  | ACT_GUARD
  | ACT_ENTER
  | ACT_EXIT
  | ACT_INTERNAL
deriving DecidableEq, Repr

/-- One queued event: id plus opaque payload (`tStateEvent`). -/
structure tStateEvent where
  mID : tStEventID
  mData : tStEventData
deriving DecidableEq, Repr

/-- One transition edge: triggering event id and target state (`tStateGuard`);
the `void *mStInfo` pointer is a state index here. -/
structure tStateGuard where
  mID : tStEventID
  mStInfo : Nat
deriving DecidableEq, Repr

/-- Static state descriptor (`tStateInfo`).  The entry function pointer is a
pure function whose Bool result is the guard response (meaningful only for
the guard action); the next-state count and deferrable-id count of the C
struct are the list lengths. -/
structure tStateInfo where
  mEntry : tStateEvent → eStateAction → Bool
  mpNextStates : List tStateGuard
  mpDeferEvtIDs : List tStEventID

/-- Bounded circular event queue (`tSmQueueEvt`).  The backing array
`mpQData` is a total function from slot index to stored event. -/
structure tSmQueueEvt where
  mQHead : Nat
  mQTail : Nat
  mQCount : Nat
  mQSize : Nat
  mpQData : Nat → tStateEvent

/-- Mutable machine instance (`tSmInstance`); `pCurrState` is a state index. -/
structure tSmInstance where
  pCurrState : Nat
  activeEvtQueue : tSmQueueEvt
  deferredEvtQueue : tSmQueueEvt
  bInitFinished : Bool

/-- Models `_SmQFull`: the queue is full when count equals size. -/
def _SmQFull (pEvQ : tSmQueueEvt) : Bool :=
  pEvQ.mQCount == pEvQ.mQSize

/-- Models `_SmQEmpty`: the queue is empty when count is zero. -/
def _SmQEmpty (pEvQ : tSmQueueEvt) : Bool :=
  0 == pEvQ.mQCount

/-- Models `_SmEnqueueEvent`: on a full queue return unchanged; otherwise bump the
tail (wrapping at size), bump the count, and store the event at the new
tail slot. -/
def _SmEnqueueEvent (pEvQ : tSmQueueEvt) (evtID : tStEventID) (evtData : tStEventData) :
    tSmQueueEvt :=
  if _SmQFull pEvQ then pEvQ
  else
    let tailBumped := pEvQ.mQTail + 1
    let newTail := if tailBumped == pEvQ.mQSize then 0 else tailBumped
    { pEvQ with
      mQTail := newTail
      mQCount := pEvQ.mQCount + 1
      mpQData := fun i => if i == newTail then ⟨evtID, evtData⟩ else pEvQ.mpQData i }

/-- Models `_SmDequeueEvent`: on an empty queue return none; otherwise bump the
head (wrapping at size), drop the count, and return the event at the new
head slot together with the updated queue. -/
def _SmDequeueEvent (pEvQ : tSmQueueEvt) : Option (tStateEvent × tSmQueueEvt) :=
  if _SmQEmpty pEvQ then none
  else
    let headBumped := pEvQ.mQHead + 1
    let newHead := if headBumped == pEvQ.mQSize then 0 else headBumped
    some (pEvQ.mpQData newHead,
      { pEvQ with mQHead := newHead, mQCount := pEvQ.mQCount - 1 })

/-- Models `SmInit`: bind the initial state, zero both queues' counters, and mark
the instance initialized. -/
def SmInit (pSM : tSmInstance) (pInitialStateInfo : Nat) : tSmInstance :=
  { pSM with
    pCurrState := pInitialStateInfo
    activeEvtQueue := { pSM.activeEvtQueue with mQCount := 0, mQHead := 0, mQTail := 0 }
    deferredEvtQueue := { pSM.deferredEvtQueue with mQCount := 0, mQHead := 0, mQTail := 0 }
    bInitFinished := true }

/-- Models `SmEnqueueEvent`: reject (drop the event, change nothing) before init;
otherwise enqueue onto the active queue. -/
def SmEnqueueEvent (pSM : tSmInstance) (evtID : tStEventID) (evtData : tStEventData) :
    tSmInstance :=
  if pSM.bInitFinished == false then pSM
  else { pSM with activeEvtQueue := _SmEnqueueEvent pSM.activeEvtQueue evtID evtData }

/-- Models `_SmEnqueueDeferredEvent`: enqueue onto the deferred queue. -/
def _SmEnqueueDeferredEvent (pSM : tSmInstance) (evtID : tStEventID)
    (evtData : tStEventData) : tSmInstance :=
  { pSM with deferredEvtQueue := _SmEnqueueEvent pSM.deferredEvtQueue evtID evtData }

/-- Models `_SmDequeueActiveEvent`: dequeue from the active queue. -/
def _SmDequeueActiveEvent (pSM : tSmInstance) : Option (tStateEvent × tSmInstance) :=
  match _SmDequeueEvent pSM.activeEvtQueue with
  | none => none
  | some (e, q) => some (e, { pSM with activeEvtQueue := q })

/-- Models `_SmDequeueDeferredEvent`: dequeue from the deferred queue. -/
def _SmDequeueDeferredEvent (pSM : tSmInstance) : Option (tStateEvent × tSmInstance) :=
  match _SmDequeueEvent pSM.deferredEvtQueue with
  | none => none
  | some (e, q) => some (e, { pSM with deferredEvtQueue := q })

/-- Edge-list scan of `_SmProcessEvent`: walk the current state's next-state
list in declared order.  On an id match: self-loop targets get the Internal
action and consume the event; otherwise the target's guard is consulted,
and on acceptance the current state's Exit fires, the current-state
reference moves, and the target's Enter fires; on rejection the scan
continues.  Returns the updated instance, the consumed flag, and the trace
of callback invocations in call order. -/
def _SmProcessEventGo (states : Nat → tStateInfo) (pSM : tSmInstance)
    (pNewEvent : tStateEvent) :
    List tStateGuard → tSmInstance × Bool × List (Nat × eStateAction)
  | [] => (pSM, false, [])
  | g :: rest =>
    if g.mID == pNewEvent.mID then
      if pSM.pCurrState == g.mStInfo then
        (pSM, true, [(g.mStInfo, eStateAction.ACT_INTERNAL)])
      else
        if (states g.mStInfo).mEntry pNewEvent eStateAction.ACT_GUARD then
          ({ pSM with pCurrState := g.mStInfo }, true,
            [(g.mStInfo, eStateAction.ACT_GUARD),
             (pSM.pCurrState, eStateAction.ACT_EXIT),
             (g.mStInfo, eStateAction.ACT_ENTER)])
        else
          let r := _SmProcessEventGo states pSM pNewEvent rest
          (r.1, r.2.1, (g.mStInfo, eStateAction.ACT_GUARD) :: r.2.2)
    else
      _SmProcessEventGo states pSM pNewEvent rest

/-- Models `_SmProcessEvent`: process one event against the current state's edge
list. -/
def _SmProcessEvent (states : Nat → tStateInfo) (pSM : tSmInstance)
    (pNewEvent : tStateEvent) : tSmInstance × Bool × List (Nat × eStateAction) :=
  _SmProcessEventGo states pSM pNewEvent (states pSM.pCurrState).mpNextStates

/-- Linear search of `_SmDeferEvent` through the current state's deferrable
event-id list. -/
def _SmDeferSearch (ids : List tStEventID) (evtID : tStEventID) : Bool :=
  match ids with
  | [] => false
  | x :: rest => if evtID == x then true else _SmDeferSearch rest evtID

/-- Models `_SmDeferEvent`: if the current state's deferrable list contains the
event id, enqueue the event onto the deferred queue; otherwise drop it
unchanged. -/
def _SmDeferEvent (states : Nat → tStateInfo) (pSM : tSmInstance)
    (pNewEvent : tStateEvent) : tSmInstance :=
  if _SmDeferSearch (states pSM.pCurrState).mpDeferEvtIDs pNewEvent.mID then
    _SmEnqueueDeferredEvent pSM pNewEvent.mID pNewEvent.mData
  else
    pSM

/-- Loop of `_SmProcessActiveEvents`: dequeue from the active queue until it
returns nothing, processing each event and deferring unconsumed ones.  The
fuel is the number of remaining dequeue attempts; since processing never
touches the active queue, `mQCount + 1` attempts reproduce the C do-while
exactly (count successful dequeues followed by the failing one). -/
def _SmProcessActiveEventsGo (states : Nat → tStateInfo) :
    Nat → tSmInstance → Nat → tSmInstance × Nat
  | 0, pSM, consumedEventCount => (pSM, consumedEventCount)
  | fuel + 1, pSM, consumedEventCount =>
    match _SmDequeueActiveEvent pSM with
    | none => (pSM, consumedEventCount)
    | some (newEvent, pSM1) =>
      let r := _SmProcessEvent states pSM1 newEvent
      if r.2.1 then
        _SmProcessActiveEventsGo states fuel r.1 (consumedEventCount + 1)
      else
        _SmProcessActiveEventsGo states fuel (_SmDeferEvent states r.1 newEvent)
          consumedEventCount

/-- Models `_SmProcessActiveEvents`: drain the active queue; returns the final
instance and the number of consumed events (the C returns whether that
count is nonzero). -/
def _SmProcessActiveEvents (states : Nat → tStateInfo) (pSM : tSmInstance) :
    tSmInstance × Nat :=
  _SmProcessActiveEventsGo states (pSM.activeEvtQueue.mQCount + 1) pSM 0

/-- Loop of `_SmProcessDeferredEvents`: a do-while bounded by the snapshot
count.  `budget` is the number of continuations still allowed after the
current body (`maxLoopCount - 1 - idx` in the C); the body always runs its
dequeue attempt, and after a successful dequeue the loop continues only
while budget remains.  Returns the instance, the consumed-event count, and
the processed (successfully dequeued) count. -/
def _SmProcessDeferredEventsGo (states : Nat → tStateInfo) :
    Nat → tSmInstance → Nat → Nat → tSmInstance × Nat × Nat
  | budget, pSM, consumedEventCount, processedCount =>
    match _SmDequeueDeferredEvent pSM with
    | none => (pSM, consumedEventCount, processedCount)
    | some (newEvent, pSM1) =>
      let r := _SmProcessEvent states pSM1 newEvent
      let pSM2 := if r.2.1 then r.1 else _SmDeferEvent states r.1 newEvent
      let consumed1 := if r.2.1 then consumedEventCount + 1 else consumedEventCount
      match budget with
      | 0 => (pSM2, consumed1, processedCount + 1)
      | budget' + 1 =>
        _SmProcessDeferredEventsGo states budget' pSM2 consumed1 (processedCount + 1)

/-- Models `_SmProcessDeferredEvents`: one bounded replay pass over the deferred
queue with `maxLoopCount` snapshotted as the queue count at entry; at most
that many events are dequeued and processed. -/
def _SmProcessDeferredEvents (states : Nat → tStateInfo) (pSM : tSmInstance) :
    tSmInstance × Nat × Nat :=
  _SmProcessDeferredEventsGo states (pSM.deferredEvtQueue.mQCount - 1) pSM 0 0

/-- Outer loop of `_SmEngine`: run the active pass; when it consumed at
least one event and the deferred queue is non-empty, run one deferred
replay pass; repeat while the replay consumed at least one event.  The fuel
bounds the number of outer iterations; every continuing iteration consumes
at least one queued event permanently and nothing ever enqueues during a
run, so `active count + deferred count + 1` iterations always suffice. -/
def _SmEngineGo (states : Nat → tStateInfo) :
    Nat → tSmInstance → tSmInstance
  | 0, pSM => pSM
  | fuel + 1, pSM =>
    let a := _SmProcessActiveEvents states pSM
    if a.2 ≠ 0 ∧ a.1.deferredEvtQueue.mQCount ≠ 0 then
      let d := _SmProcessDeferredEvents states a.1
      if d.2.1 ≠ 0 then _SmEngineGo states fuel d.1 else d.1
    else
      a.1

/-- Models `_SmEngine`: process all active events, then replay deferred events,
looping while a replay pass consumed something. -/
def _SmEngine (states : Nat → tStateInfo) (pSM : tSmInstance) : tSmInstance :=
  _SmEngineGo states
    (pSM.activeEvtQueue.mQCount + pSM.deferredEvtQueue.mQCount + 1) pSM

/-- Models `SmProcessEvents`: public entry point, runs the engine. -/
def SmProcessEvents (states : Nat → tStateInfo) (pSM : tSmInstance) : tSmInstance :=
  _SmEngine states pSM

/-! Specification-side definitions for the queue refinement.

`QInv` is the data-model invariant stated for the event queue; `absQ` reads
the stored events out of the circular buffer in FIFO order; `QOp`,
`applyQOp` and `modelQOp` run an arbitrary operation sequence against the
implementation queue and against a plain bounded list, collecting each
dequeued event, so that FIFO behaviour is the statement that the two runs
agree. -/

/-- Queue invariant from the data model: positive capacity, count within
capacity, head and tail within `[0, capacity)`, and the tail sitting
`count` slots past the head. -/
def QInv (q : tSmQueueEvt) : Prop :=
  0 < q.mQSize ∧ q.mQCount ≤ q.mQSize ∧ q.mQHead < q.mQSize ∧ q.mQTail < q.mQSize ∧
    q.mQTail = (q.mQHead + q.mQCount) % q.mQSize

instance (q : tSmQueueEvt) : Decidable (QInv q) := by
  unfold QInv; infer_instance

/-- Abstraction of the circular buffer: the queued events in FIFO order
(oldest first).  Slot `(head + 1 + k) % size` holds the `k`-th queued
event. -/
def absQ (q : tSmQueueEvt) : List tStateEvent :=
  (List.range q.mQCount).map (fun k => q.mpQData ((q.mQHead + 1 + k) % q.mQSize))

/-- A queue as `SmInit` leaves it: counters zeroed, capacity `n`, storage
contents arbitrary. -/
def resetQueue (n : Nat) : tSmQueueEvt :=
  { mQHead := 0, mQTail := 0, mQCount := 0, mQSize := n, mpQData := fun _ => ⟨0, 0⟩ }

/-- One queue operation: enqueue an event or dequeue. -/
inductive QOp where
  | enq : tStEventID → tStEventData → QOp
  | deq : QOp
deriving DecidableEq, Repr

/-- Run one operation on the implementation queue, collecting dequeued
events. -/
def applyQOp (s : tSmQueueEvt × List tStateEvent) (op : QOp) :
    tSmQueueEvt × List tStateEvent :=
  match op with
  | QOp.enq evtID evtData => (_SmEnqueueEvent s.1 evtID evtData, s.2)
  | QOp.deq =>
    match _SmDequeueEvent s.1 with
    | none => s
    | some (e, q) => (q, s.2 ++ [e])

/-- Run an operation sequence on the implementation queue. -/
def applyQOps (ops : List QOp) (s : tSmQueueEvt × List tStateEvent) :
    tSmQueueEvt × List tStateEvent :=
  ops.foldl applyQOp s

/-- Run one operation on the reference model: a plain list bounded by the
capacity, dropping enqueues when full. -/
def modelQOp (cap : Nat) (s : List tStateEvent × List tStateEvent) (op : QOp) :
    List tStateEvent × List tStateEvent :=
  match op with
  | QOp.enq evtID evtData =>
    (if s.1.length < cap then s.1 ++ [⟨evtID, evtData⟩] else s.1, s.2)
  | QOp.deq =>
    match s.1 with
    | [] => s
    | e :: rest => (rest, s.2 ++ [e])

/-- Run an operation sequence on the reference model. -/
def modelQOps (cap : Nat) (ops : List QOp) (s : List tStateEvent × List tStateEvent) :
    List tStateEvent × List tStateEvent :=
  ops.foldl (modelQOp cap) s

/-- Simulation relation for the refinement: the implementation queue
satisfies the invariant, has capacity `cap`, stores the model's pending
list, and has emitted the model's output list. -/
def QRel (cap : Nat) (s : tSmQueueEvt × List tStateEvent)
    (m : List tStateEvent × List tStateEvent) : Prop :=
  QInv s.1 ∧ s.1.mQSize = cap ∧ absQ s.1 = m.1 ∧ s.2 = m.2

/-! Concrete configurations used by witnesses and counterexamples. -/

/-- A fresh, not-yet-initialized instance with capacity-8 queues. -/
def freshSm : tSmInstance :=
  { pCurrState := 0
    activeEvtQueue := resetQueue 8
    deferredEvtQueue := resetQueue 8
    bInitFinished := false }

/-- Cascade configuration: states A=0, B=1, C=2, D=3; events w=10, y=11,
z=12.  A has edge (w → B) and defers z and y; B has edge (y → C) and defers
z; C has edge (z → D); every guard accepts. -/
def cascadeStates : Nat → tStateInfo := fun n =>
  match n with
  | 0 => ⟨fun _ _ => true, [⟨10, 1⟩], [12, 11]⟩
  | 1 => ⟨fun _ _ => true, [⟨11, 2⟩], [12]⟩
  | 2 => ⟨fun _ _ => true, [⟨12, 3⟩], []⟩
  | _ => ⟨fun _ _ => true, [], []⟩

/-- Instance for the cascade run: init at A, then enqueue z, y, w. -/
def cascadeSm : tSmInstance :=
  SmEnqueueEvent (SmEnqueueEvent (SmEnqueueEvent (SmInit freshSm 0) 12 0) 11 0) 10 0

/-- Deferred-then-consumed configuration of the spec scenario: states A=0,
B=1, D=2; events w=10, z=12.  A has edge (w → B) and defers z; B has edge
(z → D) and defers nothing; every guard accepts. -/
def deferScenarioStates : Nat → tStateInfo := fun n =>
  match n with
  | 0 => ⟨fun _ _ => true, [⟨10, 1⟩], [12]⟩
  | 1 => ⟨fun _ _ => true, [⟨12, 2⟩], []⟩
  | _ => ⟨fun _ _ => true, [], []⟩

/-- Instance for the spec scenario: init at A, then enqueue z, then w. -/
def deferScenarioSm : tSmInstance :=
  SmEnqueueEvent (SmEnqueueEvent (SmInit freshSm 0) 12 0) 10 0

/-- Prioritized-alternatives configuration: state A=0 has edge list
[(x → B), (x → C)] with x=7, B=1 rejecting its guard and C=2 accepting. -/
def altStates : Nat → tStateInfo := fun n =>
  match n with
  | 0 => ⟨fun _ _ => true, [⟨7, 1⟩, ⟨7, 2⟩], []⟩
  | 1 => ⟨fun _ _ => false, [], []⟩
  | _ => ⟨fun _ _ => true, [], []⟩

/-- Instance sitting in state A of `altStates` with empty queues. -/
def altSm : tSmInstance := SmInit freshSm 0

/-- Self-loop configuration: state A=0 has the single edge (y → A) with
y=7. -/
def selfLoopStates : Nat → tStateInfo := fun n =>
  match n with
  | 0 => ⟨fun _ _ => true, [⟨7, 0⟩], []⟩
  | _ => ⟨fun _ _ => true, [], []⟩

/-- No-edge configuration: state 0 has no edges and defers event 5 only. -/
def bareStates : Nat → tStateInfo := fun n =>
  match n with
  | 0 => ⟨fun _ _ => true, [], [5]⟩
  | _ => ⟨fun _ _ => true, [], []⟩

/-- A concrete full queue of capacity 2 holding events 1 and 2. -/
def fullQ2 : tSmQueueEvt :=
  { mQHead := 0, mQTail := 0, mQCount := 2, mQSize := 2,
    mpQData := fun i => if i == 1 then ⟨1, 0⟩ else ⟨2, 0⟩ }

theorem wrapIdx_eq_mod {x n : Nat} (hx : x < n) :
    (if x + 1 == n then 0 else x + 1) = (x + 1) % n := by
  rcases Nat.lt_or_ge (x + 1) n with h | h
  · rw [if_neg (by simp; omega), Nat.mod_eq_of_lt h]
  · have hxn : x + 1 = n := by omega
    rw [if_pos (by simp [hxn]), hxn, Nat.mod_self]

theorem mod_window_inj {n a k l : Nat} (hk : k < n) (hl : l < n)
    (h : (a + k) % n = (a + l) % n) : k = l := by
  have h1 : k ≡ l [MOD n] := Nat.ModEq.add_left_cancel' a h
  have h2 : k % n = l % n := h1
  rwa [Nat.mod_eq_of_lt hk, Nat.mod_eq_of_lt hl] at h2

theorem absQ_length (q : tSmQueueEvt) : (absQ q).length = q.mQCount := by
  simp [absQ]

theorem _SmEnqueueEvent_full (q : tSmQueueEvt) (evtID : tStEventID)
    (evtData : tStEventData) (h : q.mQCount = q.mQSize) :
    _SmEnqueueEvent q evtID evtData = q := by
  simp [_SmEnqueueEvent, _SmQFull, h]

theorem _SmEnqueueEvent_spec (q : tSmQueueEvt) (evtID : tStEventID)
    (evtData : tStEventData) (hInv : QInv q) (hlt : q.mQCount < q.mQSize) :
    QInv (_SmEnqueueEvent q evtID evtData) ∧
    absQ (_SmEnqueueEvent q evtID evtData) = absQ q ++ [⟨evtID, evtData⟩] ∧
    (_SmEnqueueEvent q evtID evtData).mQSize = q.mQSize := by
  obtain ⟨hpos, hcle, hhead, htail, heq⟩ := hInv
  have hfull : _SmQFull q = false := by simp [_SmQFull]; omega
  have hwrap : (if q.mQTail + 1 == q.mQSize then 0 else q.mQTail + 1)
      = (q.mQTail + 1) % q.mQSize := wrapIdx_eq_mod htail
  have hnewTail : (q.mQTail + 1) % q.mQSize = (q.mQHead + 1 + q.mQCount) % q.mQSize := by
    rw [heq, Nat.mod_add_mod]
    congr 1
    omega
  constructor
  · refine ⟨by simpa [_SmEnqueueEvent, hfull] using hpos, ?_, ?_, ?_, ?_⟩
    · simp [_SmEnqueueEvent, hfull]; omega
    · simpa [_SmEnqueueEvent, hfull] using hhead
    · simp only [_SmEnqueueEvent, hfull, Bool.false_eq_true, if_false]
      rw [hwrap]
      exact Nat.mod_lt _ hpos
    · simp only [_SmEnqueueEvent, hfull, Bool.false_eq_true, if_false]
      rw [hwrap, hnewTail]
      congr 1
      omega
  constructor
  · simp only [_SmEnqueueEvent, hfull, Bool.false_eq_true, if_false]
    simp only [absQ, List.range_succ, List.map_append, List.map_cons, List.map_nil]
    congr 1
    · apply List.map_congr_left
      intro k hk
      rw [List.mem_range] at hk
      have hneq : (q.mQHead + 1 + k) % q.mQSize ≠ (q.mQHead + 1 + q.mQCount) % q.mQSize := by
        intro hcontra
        have := mod_window_inj (n := q.mQSize) (a := q.mQHead + 1)
          (by omega) (by omega) hcontra
        omega
      rw [hwrap, hnewTail, if_neg (by simpa using hneq)]
    · rw [hwrap, hnewTail]
      simp
  · simp [_SmEnqueueEvent, hfull]

theorem _SmDequeueEvent_empty (q : tSmQueueEvt) (h : q.mQCount = 0) :
    _SmDequeueEvent q = none := by
  simp [_SmDequeueEvent, _SmQEmpty, h]

theorem _SmDequeueEvent_spec (q : tSmQueueEvt) (hInv : QInv q) (hpos : 0 < q.mQCount) :
    _SmDequeueEvent q = some (q.mpQData ((q.mQHead + 1) % q.mQSize),
      { q with mQHead := (q.mQHead + 1) % q.mQSize, mQCount := q.mQCount - 1 }) ∧
    absQ q = q.mpQData ((q.mQHead + 1) % q.mQSize) ::
      absQ { q with mQHead := (q.mQHead + 1) % q.mQSize, mQCount := q.mQCount - 1 } ∧
    QInv { q with mQHead := (q.mQHead + 1) % q.mQSize, mQCount := q.mQCount - 1 } := by
  obtain ⟨hszpos, hcle, hhead, htail, heq⟩ := hInv
  have hne : _SmQEmpty q = false := by simp [_SmQEmpty]; omega
  have hwrap : (if q.mQHead + 1 == q.mQSize then 0 else q.mQHead + 1)
      = (q.mQHead + 1) % q.mQSize := wrapIdx_eq_mod hhead
  refine ⟨?_, ?_, ?_⟩
  · simp only [_SmDequeueEvent, hne, Bool.false_eq_true, if_false]
    rw [hwrap]
  · obtain ⟨c, hc⟩ : ∃ c, q.mQCount = c + 1 := ⟨q.mQCount - 1, by omega⟩
    simp only [absQ, hc, Nat.add_sub_cancel, List.range_succ_eq_map, List.map_cons,
      List.map_map]
    rw [List.cons_eq_cons]
    constructor
    · norm_num
    · apply List.map_congr_left
      intro k hk
      simp only [Function.comp_apply]
      congr 1
      rw [Nat.add_assoc ((q.mQHead + 1) % q.mQSize) 1 k, Nat.mod_add_mod]
      congr 1
      omega
  · refine ⟨hszpos, by simp; omega, ?_, by simpa using htail, ?_⟩
    · simp only
      exact Nat.mod_lt _ hszpos
    · simp only
      rw [Nat.mod_add_mod, heq]
      congr 1
      omega

theorem _SmDequeueEvent_spec_ex (q : tSmQueueEvt) (hInv : QInv q)
    (hpos : 0 < q.mQCount) :
    ∃ e qNew, _SmDequeueEvent q = some (e, qNew) ∧ absQ q = e :: absQ qNew ∧
      QInv qNew ∧ qNew.mQSize = q.mQSize ∧ qNew.mQCount = q.mQCount - 1 := by
  obtain ⟨h1, h2, h3⟩ := _SmDequeueEvent_spec q hInv hpos
  exact ⟨_, _, h1, h2, h3, rfl, rfl⟩

theorem applyQOp_refines (cap : Nat) (s : tSmQueueEvt × List tStateEvent)
    (m : List tStateEvent × List tStateEvent) (op : QOp) (h : QRel cap s m) :
    QRel cap (applyQOp s op) (modelQOp cap m op) := by
  obtain ⟨hInv, hsz, habs, hout⟩ := h
  cases op with
  | enq evtID evtData =>
    have happ : applyQOp s (QOp.enq evtID evtData)
        = (_SmEnqueueEvent s.1 evtID evtData, s.2) := rfl
    have hmod : modelQOp cap m (QOp.enq evtID evtData)
        = (if m.1.length < cap then m.1 ++ [⟨evtID, evtData⟩] else m.1, m.2) := rfl
    by_cases hlt : m.1.length < cap
    · have hc : s.1.mQCount < s.1.mQSize := by
        rw [← habs, absQ_length] at hlt
        omega
      obtain ⟨h1, h2, h3⟩ := _SmEnqueueEvent_spec s.1 evtID evtData hInv hc
      rw [happ, hmod, if_pos hlt]
      exact ⟨h1, by rw [h3, hsz], by rw [h2, habs], hout⟩
    · have hc : s.1.mQCount = s.1.mQSize := by
        have := hInv.2.1
        rw [← habs, absQ_length] at hlt
        omega
      rw [happ, hmod, if_neg hlt, _SmEnqueueEvent_full s.1 evtID evtData hc]
      exact ⟨hInv, hsz, habs, hout⟩
  | deq =>
    cases hm : m.1 with
    | nil =>
      have hc : s.1.mQCount = 0 := by
        have hlen := absQ_length s.1
        rw [habs, hm] at hlen
        simpa using hlen.symm
      have happ : applyQOp s QOp.deq = s := by
        simp [applyQOp, _SmDequeueEvent_empty s.1 hc]
      have hmod : modelQOp cap m QOp.deq = m := by
        simp [modelQOp, hm]
      rw [happ, hmod]
      exact ⟨hInv, hsz, habs, hout⟩
    | cons e rest =>
      have hc : 0 < s.1.mQCount := by
        have hlen := absQ_length s.1
        rw [habs, hm] at hlen
        simp at hlen
        omega
      obtain ⟨e0, qNew, hd, habs2, hq2, hsz2, _⟩ := _SmDequeueEvent_spec_ex s.1 hInv hc
      rw [habs, hm, List.cons_eq_cons] at habs2
      obtain ⟨he, ht⟩ := habs2
      have happ : applyQOp s QOp.deq = (qNew, s.2 ++ [e0]) := by
        simp [applyQOp, hd]
      have hmod : modelQOp cap m QOp.deq = (rest, m.2 ++ [e]) := by
        simp [modelQOp, hm]
      rw [happ, hmod]
      exact ⟨hq2, by rw [hsz2, hsz], ht.symm, by rw [hout, he]⟩

theorem applyQOps_refines (cap : Nat) (ops : List QOp)
    (s : tSmQueueEvt × List tStateEvent) (m : List tStateEvent × List tStateEvent)
    (h : QRel cap s m) : QRel cap (applyQOps ops s) (modelQOps cap ops m) := by
  induction ops generalizing s m with
  | nil => exact h
  | cons op rest ih => exact ih _ _ (applyQOp_refines cap s m op h)

theorem _SmQEmpty_iff (q : tSmQueueEvt) : _SmQEmpty q = true ↔ q.mQCount = 0 := by
  simp [_SmQEmpty]
  omega

theorem _SmQFull_iff (q : tSmQueueEvt) : _SmQFull q = true ↔ q.mQCount = q.mQSize := by
  simp [_SmQFull]

theorem QRel_init (cap : Nat) (hcap : 0 < cap) :
    QRel cap (resetQueue cap, []) (([] : List tStateEvent), ([] : List tStateEvent)) := by
  refine ⟨⟨hcap, by simp [resetQueue], by simpa [resetQueue] using hcap,
    by simpa [resetQueue] using hcap, by simp [resetQueue]⟩, rfl, by simp [absQ, resetQueue], rfl⟩

/-- C6: starting from the reset queue, every enqueue/dequeue sequence
preserves the queue invariant and the capacity, the stored contents and the
dequeued outputs agree with a plain bounded FIFO list, and emptiness and
fullness coincide with `count = 0` and `count = capacity`. -/
theorem claim_C6_queue_fifo (cap : Nat) (hcap : 0 < cap) (ops : List QOp) :
    QInv (applyQOps ops (resetQueue cap, [])).1 ∧
    (applyQOps ops (resetQueue cap, [])).1.mQSize = cap ∧
    absQ (applyQOps ops (resetQueue cap, [])).1 = (modelQOps cap ops ([], [])).1 ∧
    (applyQOps ops (resetQueue cap, [])).2 = (modelQOps cap ops ([], [])).2 ∧
    (_SmQEmpty (applyQOps ops (resetQueue cap, [])).1 = true ↔
      (applyQOps ops (resetQueue cap, [])).1.mQCount = 0) ∧
    (_SmQFull (applyQOps ops (resetQueue cap, [])).1 = true ↔
      (applyQOps ops (resetQueue cap, [])).1.mQCount
        = (applyQOps ops (resetQueue cap, [])).1.mQSize) := by
  obtain ⟨h1, h2, h3, h4⟩ := applyQOps_refines cap ops _ _ (QRel_init cap hcap)
  exact ⟨h1, h2, h3, h4, _SmQEmpty_iff _, _SmQFull_iff _⟩

theorem claim_C6_witness :
    QInv (applyQOps [QOp.enq 5 7, QOp.enq 6 8, QOp.enq 9 9, QOp.deq, QOp.deq]
        (resetQueue 2, [])).1 ∧
    (applyQOps [QOp.enq 5 7, QOp.enq 6 8, QOp.enq 9 9, QOp.deq, QOp.deq]
        (resetQueue 2, [])).1.mQSize = 2 ∧
    absQ (applyQOps [QOp.enq 5 7, QOp.enq 6 8, QOp.enq 9 9, QOp.deq, QOp.deq]
        (resetQueue 2, [])).1
      = (modelQOps 2 [QOp.enq 5 7, QOp.enq 6 8, QOp.enq 9 9, QOp.deq, QOp.deq] ([], [])).1 ∧
    (applyQOps [QOp.enq 5 7, QOp.enq 6 8, QOp.enq 9 9, QOp.deq, QOp.deq]
        (resetQueue 2, [])).2
      = (modelQOps 2 [QOp.enq 5 7, QOp.enq 6 8, QOp.enq 9 9, QOp.deq, QOp.deq] ([], [])).2 ∧
    (_SmQEmpty (applyQOps [QOp.enq 5 7, QOp.enq 6 8, QOp.enq 9 9, QOp.deq, QOp.deq]
        (resetQueue 2, [])).1 = true ↔
      (applyQOps [QOp.enq 5 7, QOp.enq 6 8, QOp.enq 9 9, QOp.deq, QOp.deq]
        (resetQueue 2, [])).1.mQCount = 0) ∧
    (_SmQFull (applyQOps [QOp.enq 5 7, QOp.enq 6 8, QOp.enq 9 9, QOp.deq, QOp.deq]
        (resetQueue 2, [])).1 = true ↔
      (applyQOps [QOp.enq 5 7, QOp.enq 6 8, QOp.enq 9 9, QOp.deq, QOp.deq]
        (resetQueue 2, [])).1.mQCount
        = (applyQOps [QOp.enq 5 7, QOp.enq 6 8, QOp.enq 9 9, QOp.deq, QOp.deq]
            (resetQueue 2, [])).1.mQSize) :=
  claim_C6_queue_fifo 2 (by decide) [QOp.enq 5 7, QOp.enq 6 8, QOp.enq 9 9, QOp.deq, QOp.deq]

/-- C7: enqueue on a full queue is a no-op: the queue (count, head, tail and
stored contents) is returned unchanged and the newest event is dropped. -/
theorem claim_C7_enqueue_full_noop (q : tSmQueueEvt) (evtID : tStEventID)
    (evtData : tStEventData) (h : q.mQCount = q.mQSize) :
    _SmEnqueueEvent q evtID evtData = q := by
  simp [_SmEnqueueEvent, _SmQFull, h]

theorem claim_C7_witness : _SmEnqueueEvent fullQ2 5 6 = fullQ2 :=
  claim_C7_enqueue_full_noop fullQ2 5 6 rfl

theorem _SmDeferSearch_iff_mem (ids : List tStEventID) (evtID : tStEventID) :
    _SmDeferSearch ids evtID = true ↔ evtID ∈ ids := by
  induction ids with
  | nil => simp [_SmDeferSearch]
  | cons x rest ih =>
    by_cases h : evtID = x
    · simp [_SmDeferSearch, h]
    · simp [_SmDeferSearch, h, ih]

/-- C8: an unconsumed event whose id the current state's deferrable list
contains is enqueued (id and payload) onto the deferred queue through the
standard enqueue; otherwise the instance is returned unchanged (event
dropped).  The search result coincides with list membership. -/
theorem claim_C8_defer_decision (states : Nat → tStateInfo) (pSM : tSmInstance)
    (pNewEvent : tStateEvent) :
    (pNewEvent.mID ∈ (states pSM.pCurrState).mpDeferEvtIDs →
      _SmDeferEvent states pSM pNewEvent
        = { pSM with deferredEvtQueue :=
              _SmEnqueueEvent pSM.deferredEvtQueue pNewEvent.mID pNewEvent.mData }) ∧
    (pNewEvent.mID ∉ (states pSM.pCurrState).mpDeferEvtIDs →
      _SmDeferEvent states pSM pNewEvent = pSM) := by
  constructor
  · intro hmem
    rw [_SmDeferEvent, if_pos ((_SmDeferSearch_iff_mem _ _).mpr hmem)]
    rfl
  · intro hmem
    rw [_SmDeferEvent, if_neg ?_]
    intro hcontra
    exact hmem ((_SmDeferSearch_iff_mem _ _).mp hcontra)

theorem claim_C8_witness :
    _SmDeferEvent bareStates (SmInit freshSm 0) ⟨5, 9⟩
      = { SmInit freshSm 0 with
          deferredEvtQueue := _SmEnqueueEvent (SmInit freshSm 0).deferredEvtQueue 5 9 } :=
  (claim_C8_defer_decision bareStates (SmInit freshSm 0) ⟨5, 9⟩).1 (by decide)

/-- C9: an enqueue on a not-yet-initialized instance is a no-op returning
the instance untouched; `SmInit` sets the initialized flag, after which
`SmEnqueueEvent` enqueues onto the active queue. -/
theorem claim_C9_enqueue_requires_init (pSM : tSmInstance) (stInit : Nat)
    (evtID : tStEventID) (evtData : tStEventData) :
    (pSM.bInitFinished = false → SmEnqueueEvent pSM evtID evtData = pSM) ∧
    (SmInit pSM stInit).bInitFinished = true ∧
    SmEnqueueEvent (SmInit pSM stInit) evtID evtData
      = { SmInit pSM stInit with
          activeEvtQueue := _SmEnqueueEvent (SmInit pSM stInit).activeEvtQueue evtID evtData } := by
  refine ⟨fun h => by simp [SmEnqueueEvent, h], rfl, ?_⟩
  simp [SmEnqueueEvent, SmInit]

theorem claim_C9_witness : SmEnqueueEvent freshSm 3 4 = freshSm :=
  (claim_C9_enqueue_requires_init freshSm 0 3 4).1 rfl

theorem _SmProcessEventGo_not_used (states : Nat → tStateInfo) (pSM : tSmInstance)
    (ev : tStateEvent) (es : List tStateGuard)
    (h : (_SmProcessEventGo states pSM ev es).2.1 = false) :
    (_SmProcessEventGo states pSM ev es).1 = pSM := by
  induction es with
  | nil => rfl
  | cons g rest ih =>
    by_cases h1 : (g.mID == ev.mID) = true
    · by_cases h2 : (pSM.pCurrState == g.mStInfo) = true
      · simp [_SmProcessEventGo, h1, h2] at h
      · by_cases h3 : (states g.mStInfo).mEntry ev eStateAction.ACT_GUARD = true
        · simp [_SmProcessEventGo, h1, h2, h3] at h
        · simp only [Bool.not_eq_true] at h2 h3
          simp only [_SmProcessEventGo, h1, if_true, h2, h3, Bool.false_eq_true,
            if_false] at h ⊢
          exact ih h
    · simp only [Bool.not_eq_true] at h1
      simp only [_SmProcessEventGo, h1, Bool.false_eq_true, if_false] at h ⊢
      exact ih h

/-- C10: if the transition protocol leaves an event unconsumed, the
instance is returned exactly as it was: same current-state reference, same
active queue, same deferred queue, same flag. -/
theorem claim_C10_unconsumed_frame (states : Nat → tStateInfo) (pSM : tSmInstance)
    (pNewEvent : tStateEvent)
    (h : (_SmProcessEvent states pSM pNewEvent).2.1 = false) :
    (_SmProcessEvent states pSM pNewEvent).1 = pSM :=
  _SmProcessEventGo_not_used states pSM pNewEvent _ h

theorem claim_C10_witness :
    (_SmProcessEvent bareStates (SmInit freshSm 0) ⟨9, 0⟩).1 = SmInit freshSm 0 :=
  claim_C10_unconsumed_frame bareStates (SmInit freshSm 0) ⟨9, 0⟩ rfl

/-- C3: with the current state's edge list declaring two edges on the same
event id, the first toward a guard-rejecting state and the second toward a
guard-accepting one, processing that event consults both guards in declared
order, moves to the second target (never the first), and fires exactly the
current state's Exit and the accepted target's Enter, in that order. -/
theorem claim_C3_guard_reject_continues (states : Nat → tStateInfo) (pSM : tSmInstance)
    (ev : tStateEvent) (stB stC : Nat)
    (hedges : (states pSM.pCurrState).mpNextStates = [⟨ev.mID, stB⟩, ⟨ev.mID, stC⟩])
    (hB : stB ≠ pSM.pCurrState) (hC : stC ≠ pSM.pCurrState)
    (hgB : (states stB).mEntry ev eStateAction.ACT_GUARD = false)
    (hgC : (states stC).mEntry ev eStateAction.ACT_GUARD = true) :
    _SmProcessEvent states pSM ev =
      ({ pSM with pCurrState := stC }, true,
        [(stB, eStateAction.ACT_GUARD), (stC, eStateAction.ACT_GUARD),
         (pSM.pCurrState, eStateAction.ACT_EXIT), (stC, eStateAction.ACT_ENTER)]) := by
  have h1 : (pSM.pCurrState == stB) = false := by
    rw [beq_eq_false_iff_ne]
    exact Ne.symm hB
  have h2 : (pSM.pCurrState == stC) = false := by
    rw [beq_eq_false_iff_ne]
    exact Ne.symm hC
  rw [_SmProcessEvent, hedges]
  simp [_SmProcessEventGo, h1, h2, hgB, hgC]

theorem claim_C3_witness :
    _SmProcessEvent altStates altSm ⟨7, 0⟩ =
      ({ altSm with pCurrState := 2 }, true,
        [(1, eStateAction.ACT_GUARD), (2, eStateAction.ACT_GUARD),
         (altSm.pCurrState, eStateAction.ACT_EXIT), (2, eStateAction.ACT_ENTER)]) :=
  claim_C3_guard_reject_continues altStates altSm ⟨7, 0⟩ 1 2 rfl
    (by decide) (by decide) rfl rfl

theorem _SmProcessEventGo_self_loop (states : Nat → tStateInfo) (pSM : tSmInstance)
    (ev : tStateEvent) (pre post : List tStateGuard)
    (hpre : ∀ g ∈ pre, g.mID = ev.mID →
      g.mStInfo ≠ pSM.pCurrState ∧
        (states g.mStInfo).mEntry ev eStateAction.ACT_GUARD = false) :
    _SmProcessEventGo states pSM ev (pre ++ ⟨ev.mID, pSM.pCurrState⟩ :: post) =
      (pSM, true,
        (pre.filter (fun g => g.mID == ev.mID)).map
            (fun g => (g.mStInfo, eStateAction.ACT_GUARD))
          ++ [(pSM.pCurrState, eStateAction.ACT_INTERNAL)]) := by
  induction pre with
  | nil => simp [_SmProcessEventGo]
  | cons g rest ih =>
    have hrw := ih (fun g' hg' => hpre g' (List.mem_cons_of_mem _ hg'))
    by_cases h1 : g.mID = ev.mID
    · obtain ⟨hne, hguard⟩ := hpre g (by simp) h1
      have h2 : (pSM.pCurrState == g.mStInfo) = false := by
        rw [beq_eq_false_iff_ne]
        exact Ne.symm hne
      have h1b : (g.mID == ev.mID) = true := by simp [h1]
      simp only [List.cons_append, _SmProcessEventGo, h1b, if_true, h2,
        Bool.false_eq_true, if_false, hguard, List.append_eq]
      rw [hrw]
      simp [List.filter_cons, h1b]
    · have h1' : (g.mID == ev.mID) = false := by
        rw [beq_eq_false_iff_ne]
        exact h1
      simp only [List.cons_append, _SmProcessEventGo, h1', Bool.false_eq_true, if_false,
        List.append_eq]
      rw [hrw]
      simp [List.filter_cons, h1']

/-- C5: when the scan reaches a matching self-loop edge (every earlier
matching edge having a rejecting, non-self target), the event is consumed,
the instance is unchanged, the scan stops, and the callback trace shows
exactly one Internal invocation of the current state and no Exit and no
Enter. -/
theorem claim_C5_self_loop_internal (states : Nat → tStateInfo) (pSM : tSmInstance)
    (ev : tStateEvent) (pre post : List tStateGuard)
    (hedges : (states pSM.pCurrState).mpNextStates
      = pre ++ ⟨ev.mID, pSM.pCurrState⟩ :: post)
    (hpre : ∀ g ∈ pre, g.mID = ev.mID →
      g.mStInfo ≠ pSM.pCurrState ∧
        (states g.mStInfo).mEntry ev eStateAction.ACT_GUARD = false) :
    (_SmProcessEvent states pSM ev).1 = pSM ∧
    (_SmProcessEvent states pSM ev).2.1 = true ∧
    (_SmProcessEvent states pSM ev).2.2 =
      (pre.filter (fun g => g.mID == ev.mID)).map
          (fun g => (g.mStInfo, eStateAction.ACT_GUARD))
        ++ [(pSM.pCurrState, eStateAction.ACT_INTERNAL)] ∧
    ((_SmProcessEvent states pSM ev).2.2).countP
        (fun c => c.2 == eStateAction.ACT_INTERNAL) = 1 ∧
    ((_SmProcessEvent states pSM ev).2.2).countP
        (fun c => c.2 == eStateAction.ACT_EXIT) = 0 ∧
    ((_SmProcessEvent states pSM ev).2.2).countP
        (fun c => c.2 == eStateAction.ACT_ENTER) = 0 := by
  have hgo := _SmProcessEventGo_self_loop states pSM ev pre post hpre
  have hzero : ∀ act : eStateAction, act ≠ eStateAction.ACT_GUARD →
      ((pre.filter (fun g => g.mID == ev.mID)).map
        (fun g => (g.mStInfo, eStateAction.ACT_GUARD))).countP
          (fun c => c.2 == act) = 0 := by
    intro act hact
    rw [List.countP_eq_zero]
    intro a ha
    rw [List.mem_map] at ha
    obtain ⟨g, hg1, hg2⟩ := ha
    rw [← hg2]
    simp only [beq_iff_eq]
    exact fun hcon => hact hcon.symm
  rw [_SmProcessEvent, hedges, hgo]
  refine ⟨rfl, rfl, rfl, ?_, ?_, ?_⟩ <;>
    rw [List.countP_append, hzero _ (by decide)] <;> rfl

theorem claim_C5_witness :
    (_SmProcessEvent selfLoopStates (SmInit freshSm 0) ⟨7, 0⟩).1 = SmInit freshSm 0 ∧
    (_SmProcessEvent selfLoopStates (SmInit freshSm 0) ⟨7, 0⟩).2.1 = true ∧
    (_SmProcessEvent selfLoopStates (SmInit freshSm 0) ⟨7, 0⟩).2.2 =
      (([] : List tStateGuard).filter (fun g => g.mID == (7 : Nat))).map
          (fun g => (g.mStInfo, eStateAction.ACT_GUARD))
        ++ [((SmInit freshSm 0).pCurrState, eStateAction.ACT_INTERNAL)] ∧
    ((_SmProcessEvent selfLoopStates (SmInit freshSm 0) ⟨7, 0⟩).2.2).countP
        (fun c => c.2 == eStateAction.ACT_INTERNAL) = 1 ∧
    ((_SmProcessEvent selfLoopStates (SmInit freshSm 0) ⟨7, 0⟩).2.2).countP
        (fun c => c.2 == eStateAction.ACT_EXIT) = 0 ∧
    ((_SmProcessEvent selfLoopStates (SmInit freshSm 0) ⟨7, 0⟩).2.2).countP
        (fun c => c.2 == eStateAction.ACT_ENTER) = 0 :=
  claim_C5_self_loop_internal selfLoopStates (SmInit freshSm 0) ⟨7, 0⟩ [] [] rfl
    (by simp)

theorem _SmProcessEventGo_frame (states : Nat → tStateInfo) (pSM : tSmInstance)
    (ev : tStateEvent) (es : List tStateGuard) :
    (_SmProcessEventGo states pSM ev es).1.activeEvtQueue = pSM.activeEvtQueue ∧
    (_SmProcessEventGo states pSM ev es).1.deferredEvtQueue = pSM.deferredEvtQueue ∧
    (_SmProcessEventGo states pSM ev es).1.bInitFinished = pSM.bInitFinished := by
  induction es with
  | nil => exact ⟨rfl, rfl, rfl⟩
  | cons g rest ih =>
    cases h1 : (g.mID == ev.mID) with
    | false => simpa only [_SmProcessEventGo, h1, Bool.false_eq_true, if_false] using ih
    | true =>
      cases h2 : (pSM.pCurrState == g.mStInfo) with
      | true => simp [_SmProcessEventGo, h1, h2]
      | false =>
        cases h3 : ((states g.mStInfo).mEntry ev eStateAction.ACT_GUARD) with
        | true => simp [_SmProcessEventGo, h1, h2, h3]
        | false =>
          simpa only [_SmProcessEventGo, h1, if_true, h2, h3, Bool.false_eq_true,
            if_false] using ih

theorem _SmProcessEvent_frame (states : Nat → tStateInfo) (pSM : tSmInstance)
    (ev : tStateEvent) :
    (_SmProcessEvent states pSM ev).1.activeEvtQueue = pSM.activeEvtQueue ∧
    (_SmProcessEvent states pSM ev).1.deferredEvtQueue = pSM.deferredEvtQueue ∧
    (_SmProcessEvent states pSM ev).1.bInitFinished = pSM.bInitFinished :=
  _SmProcessEventGo_frame states pSM ev _

theorem _SmDeferEvent_frame (states : Nat → tStateInfo) (pSM : tSmInstance)
    (ev : tStateEvent) :
    (_SmDeferEvent states pSM ev).activeEvtQueue = pSM.activeEvtQueue ∧
    (_SmDeferEvent states pSM ev).pCurrState = pSM.pCurrState ∧
    (_SmDeferEvent states pSM ev).bInitFinished = pSM.bInitFinished := by
  rw [_SmDeferEvent]
  split
  · exact ⟨rfl, rfl, rfl⟩
  · exact ⟨rfl, rfl, rfl⟩

theorem _SmDequeueEvent_none_count (q : tSmQueueEvt) (h : _SmDequeueEvent q = none) :
    q.mQCount = 0 := by
  by_cases hemp : _SmQEmpty q = true
  · simp only [_SmQEmpty, beq_iff_eq] at hemp
    omega
  · rw [_SmDequeueEvent, if_neg hemp] at h
    exact absurd h (by simp)

theorem _SmDequeueEvent_some_count (q : tSmQueueEvt) (e : tStateEvent)
    (q' : tSmQueueEvt) (h : _SmDequeueEvent q = some (e, q')) :
    0 < q.mQCount ∧ q'.mQCount = q.mQCount - 1 := by
  by_cases hemp : _SmQEmpty q = true
  · rw [_SmDequeueEvent, if_pos hemp] at h
    exact absurd h (by simp)
  · simp only [_SmDequeueEvent, if_neg hemp, Option.some.injEq, Prod.mk.injEq] at h
    obtain ⟨he, hq⟩ := h
    constructor
    · simp only [_SmQEmpty, beq_iff_eq] at hemp
      omega
    · rw [← hq]

theorem _SmDequeueActiveEvent_none (pSM : tSmInstance)
    (h : _SmDequeueActiveEvent pSM = none) : pSM.activeEvtQueue.mQCount = 0 := by
  rw [_SmDequeueActiveEvent] at h
  cases hd : _SmDequeueEvent pSM.activeEvtQueue with
  | none => exact _SmDequeueEvent_none_count _ hd
  | some p => rw [hd] at h; exact absurd h (by simp)

theorem _SmDequeueActiveEvent_none_of (pSM : tSmInstance)
    (h : pSM.activeEvtQueue.mQCount = 0) : _SmDequeueActiveEvent pSM = none := by
  rw [_SmDequeueActiveEvent, _SmDequeueEvent_empty _ h]

theorem _SmDequeueActiveEvent_some (pSM : tSmInstance) (ev : tStateEvent)
    (pSM' : tSmInstance) (h : _SmDequeueActiveEvent pSM = some (ev, pSM')) :
    0 < pSM.activeEvtQueue.mQCount ∧
    pSM'.activeEvtQueue.mQCount = pSM.activeEvtQueue.mQCount - 1 ∧
    pSM'.deferredEvtQueue = pSM.deferredEvtQueue ∧
    pSM'.pCurrState = pSM.pCurrState ∧
    pSM'.bInitFinished = pSM.bInitFinished := by
  rw [_SmDequeueActiveEvent] at h
  cases hd : _SmDequeueEvent pSM.activeEvtQueue with
  | none => rw [hd] at h; exact absurd h (by simp)
  | some p =>
    rw [hd] at h
    obtain ⟨e0, q0⟩ := p
    simp only [Option.some.injEq, Prod.mk.injEq] at h
    obtain ⟨he, hsm⟩ := h
    obtain ⟨hpos, hcount⟩ := _SmDequeueEvent_some_count _ _ _ hd
    rw [← hsm]
    exact ⟨hpos, hcount, rfl, rfl, rfl⟩

theorem _SmDequeueDeferredEvent_some (pSM : tSmInstance) (ev : tStateEvent)
    (pSM' : tSmInstance) (h : _SmDequeueDeferredEvent pSM = some (ev, pSM')) :
    pSM'.activeEvtQueue = pSM.activeEvtQueue ∧
    pSM'.pCurrState = pSM.pCurrState ∧
    pSM'.bInitFinished = pSM.bInitFinished := by
  rw [_SmDequeueDeferredEvent] at h
  cases hd : _SmDequeueEvent pSM.deferredEvtQueue with
  | none => rw [hd] at h; exact absurd h (by simp)
  | some p =>
    rw [hd] at h
    obtain ⟨e0, q0⟩ := p
    simp only [Option.some.injEq, Prod.mk.injEq] at h
    obtain ⟨he, hsm⟩ := h
    rw [← hsm]
    exact ⟨rfl, rfl, rfl⟩

theorem _SmProcessActiveEventsGo_drains (states : Nat → tStateInfo) (fuel : Nat) :
    ∀ (pSM : tSmInstance) (c : Nat), pSM.activeEvtQueue.mQCount < fuel →
      ((_SmProcessActiveEventsGo states fuel pSM c).1).activeEvtQueue.mQCount = 0 := by
  induction fuel with
  | zero => intro pSM c h; omega
  | succ f ih =>
    intro pSM c h
    rw [_SmProcessActiveEventsGo]
    cases hdq : _SmDequeueActiveEvent pSM with
    | none => exact _SmDequeueActiveEvent_none pSM hdq
    | some p =>
      obtain ⟨ev, pSM1⟩ := p
      obtain ⟨hpos, hcount, _, _, _⟩ := _SmDequeueActiveEvent_some pSM ev pSM1 hdq
      have hpe := (_SmProcessEvent_frame states pSM1 ev).1
      cases hused : (_SmProcessEvent states pSM1 ev).2.1 with
      | true =>
        simp only [hused, if_true]
        exact ih _ _ (by rw [hpe]; omega)
      | false =>
        simp only [hused, Bool.false_eq_true, if_false]
        have hdf := (_SmDeferEvent_frame states (_SmProcessEvent states pSM1 ev).1 ev).1
        exact ih _ _ (by rw [hdf, hpe]; omega)

theorem _SmProcessActiveEvents_drains (states : Nat → tStateInfo) (pSM : tSmInstance) :
    ((_SmProcessActiveEvents states pSM).1).activeEvtQueue.mQCount = 0 :=
  _SmProcessActiveEventsGo_drains states _ pSM 0 (by omega)

theorem _SmProcessActiveEvents_empty (states : Nat → tStateInfo) (pSM : tSmInstance)
    (h : pSM.activeEvtQueue.mQCount = 0) :
    _SmProcessActiveEvents states pSM = (pSM, 0) := by
  rw [_SmProcessActiveEvents, h, _SmProcessActiveEventsGo,
    _SmDequeueActiveEvent_none_of pSM h]

theorem _SmProcessDeferredEventsGo_active (states : Nat → tStateInfo) (budget : Nat) :
    ∀ (pSM : tSmInstance) (c p : Nat),
      ((_SmProcessDeferredEventsGo states budget pSM c p).1).activeEvtQueue
        = pSM.activeEvtQueue := by
  induction budget with
  | zero =>
    intro pSM c p
    rw [_SmProcessDeferredEventsGo]
    cases hdq : _SmDequeueDeferredEvent pSM with
    | none => rfl
    | some q =>
      obtain ⟨ev, pSM1⟩ := q
      obtain ⟨hact, _, _⟩ := _SmDequeueDeferredEvent_some pSM ev pSM1 hdq
      have hpe := (_SmProcessEvent_frame states pSM1 ev).1
      cases hused : (_SmProcessEvent states pSM1 ev).2.1 with
      | true => simp only [hused, if_true]; rw [hpe, hact]
      | false =>
        simp only [hused, Bool.false_eq_true, if_false]
        have hdf := (_SmDeferEvent_frame states (_SmProcessEvent states pSM1 ev).1 ev).1
        rw [hdf, hpe, hact]
  | succ b ih =>
    intro pSM c p
    rw [_SmProcessDeferredEventsGo]
    cases hdq : _SmDequeueDeferredEvent pSM with
    | none => rfl
    | some q =>
      obtain ⟨ev, pSM1⟩ := q
      obtain ⟨hact, _, _⟩ := _SmDequeueDeferredEvent_some pSM ev pSM1 hdq
      have hpe := (_SmProcessEvent_frame states pSM1 ev).1
      cases hused : (_SmProcessEvent states pSM1 ev).2.1 with
      | true =>
        simp only [hused, if_true]
        rw [ih _ _ _, hpe, hact]
      | false =>
        simp only [hused, Bool.false_eq_true, if_false]
        have hdf := (_SmDeferEvent_frame states (_SmProcessEvent states pSM1 ev).1 ev).1
        rw [ih _ _ _, hdf, hpe, hact]

theorem _SmProcessDeferredEvents_active (states : Nat → tStateInfo) (pSM : tSmInstance) :
    ((_SmProcessDeferredEvents states pSM).1).activeEvtQueue = pSM.activeEvtQueue :=
  _SmProcessDeferredEventsGo_active states _ pSM 0 0

theorem _SmEngineGo_empty_active (states : Nat → tStateInfo) (fuel : Nat)
    (pSM : tSmInstance) (h : pSM.activeEvtQueue.mQCount = 0) :
    _SmEngineGo states fuel pSM = pSM := by
  cases fuel with
  | zero => rfl
  | succ f =>
    rw [_SmEngineGo, _SmProcessActiveEvents_empty states pSM h]
    simp

theorem _SmDequeueDeferredEvent_none_of (pSM : tSmInstance)
    (h : pSM.deferredEvtQueue.mQCount = 0) : _SmDequeueDeferredEvent pSM = none := by
  rw [_SmDequeueDeferredEvent, _SmDequeueEvent_empty _ h]

/-- C1 amended: the outer engine loop never performs a second deferred
replay in one call.  One call equals: run the active pass, then, exactly
when that pass consumed at least one event and the deferred queue is
non-empty, run a single deferred replay pass — even when that replay
consumes events and leaves the deferred queue non-empty, because on the
repeat the active queue is already drained, the active pass consumes
nothing, and the replay gate (which requires active-pass consumption)
stays closed. -/
theorem claim_C1_amended (states : Nat → tStateInfo) (pSM : tSmInstance) :
    _SmEngine states pSM =
      if (_SmProcessActiveEvents states pSM).2 ≠ 0 ∧
          ((_SmProcessActiveEvents states pSM).1).deferredEvtQueue.mQCount ≠ 0 then
        (_SmProcessDeferredEvents states ((_SmProcessActiveEvents states pSM).1)).1
      else
        (_SmProcessActiveEvents states pSM).1 := by
  rw [_SmEngine]
  simp only [_SmEngineGo]
  by_cases hcond : (_SmProcessActiveEvents states pSM).2 ≠ 0 ∧
      ((_SmProcessActiveEvents states pSM).1).deferredEvtQueue.mQCount ≠ 0
  · rw [if_pos hcond, if_pos hcond]
    by_cases hd : (_SmProcessDeferredEvents states
        ((_SmProcessActiveEvents states pSM).1)).2.1 ≠ 0
    · rw [if_pos hd]
      apply _SmEngineGo_empty_active
      rw [_SmProcessDeferredEvents_active]
      exact _SmProcessActiveEvents_drains states pSM
    · rw [if_neg hd]
  · rw [if_neg hcond, if_neg hcond]

theorem _SmProcessDeferredEventsGo_processed (states : Nat → tStateInfo) (budget : Nat) :
    ∀ (pSM : tSmInstance) (c p : Nat),
      (_SmProcessDeferredEventsGo states budget pSM c p).2.2 ≤ p + budget + 1 := by
  induction budget with
  | zero =>
    intro pSM c p
    rw [_SmProcessDeferredEventsGo]
    cases hdq : _SmDequeueDeferredEvent pSM with
    | none => simp
    | some q =>
      obtain ⟨ev, pSM1⟩ := q
      simp
  | succ b ih =>
    intro pSM c p
    rw [_SmProcessDeferredEventsGo]
    cases hdq : _SmDequeueDeferredEvent pSM with
    | none => simp; omega
    | some q =>
      obtain ⟨ev, pSM1⟩ := q
      exact le_trans (ih _ _ _) (by omega)

/-- C4: one deferred replay pass dequeues and processes at most as many
events as the deferred queue held when the pass started, whatever
re-deferrals happen during the pass. -/
theorem claim_C4_bounded_replay (states : Nat → tStateInfo) (pSM : tSmInstance) :
    (_SmProcessDeferredEvents states pSM).2.2 ≤ pSM.deferredEvtQueue.mQCount := by
  rw [_SmProcessDeferredEvents]
  cases hc : pSM.deferredEvtQueue.mQCount with
  | zero =>
    rw [_SmProcessDeferredEventsGo, _SmDequeueDeferredEvent_none_of pSM hc]
  | succ m =>
    rw [Nat.add_sub_cancel]
    exact le_trans (_SmProcessDeferredEventsGo_processed states m pSM 0 0) (by omega)

/-- C1 counterexample: in the cascade run, init(A) then enqueue z, y, w.
The single deferred replay pass consumes one event (y, driving B to C) and
leaves the deferred queue non-empty (z was re-deferred before the state
change), yet `SmProcessEvents` returns in state C with z still queued —
and one further deferred replay on the returned instance would consume z
and reach D.  The claimed additional deferred replay before return does
not happen. -/
theorem claim_C1_counterexample :
    (_SmProcessDeferredEvents cascadeStates
        ((_SmProcessActiveEvents cascadeStates cascadeSm).1)).2.1 = 1 ∧
    ((_SmProcessDeferredEvents cascadeStates
        ((_SmProcessActiveEvents cascadeStates cascadeSm).1)).1).deferredEvtQueue.mQCount
      = 1 ∧
    (SmProcessEvents cascadeStates cascadeSm).pCurrState = 2 ∧
    (SmProcessEvents cascadeStates cascadeSm).deferredEvtQueue.mQCount = 1 ∧
    ((_SmProcessDeferredEvents cascadeStates
        (SmProcessEvents cascadeStates cascadeSm)).1).pCurrState = 3 ∧
    ((_SmProcessDeferredEvents cascadeStates
        (SmProcessEvents cascadeStates cascadeSm)).2.1) = 1 :=
  ⟨rfl, rfl, rfl, rfl, rfl, rfl⟩

/-- C2: the spec scenario — A defers evtZ and moves to B on evtW, B moves
to D on evtZ; after init(A), enqueue(evtZ), enqueue(evtW) and one
`SmProcessEvents` call the instance is in D with both queues drained. -/
theorem claim_C2_defer_replay_scenario :
    (SmProcessEvents deferScenarioStates deferScenarioSm).pCurrState = 2 ∧
    (SmProcessEvents deferScenarioStates deferScenarioSm).deferredEvtQueue.mQCount = 0 ∧
    (SmProcessEvents deferScenarioStates deferScenarioSm).activeEvtQueue.mQCount = 0 :=
  ⟨rfl, rfl, rfl⟩
